import Mathlib

/-!
Verification of the eip-7702-metrics data-processing pipelines.

The Python sources are shallowly embedded:
* `src/data-processing/geth-traces/process_geth_logs.py` — log classification,
  per-file aggregation, and the SQLite metric store (`INSERT OR IGNORE` with
  primary key `(timestamp, metric_name, source_file)`, plus the derived
  `geth_metrics_summary` table).
* `src/data-processing/mempool-data/shredder_script.py` — the snapshot shredder.
* `src/data-processing/memstats-data/process_memstats.py` — the gauge splitter.

File contents are modelled as lists of line strings (newline already removed,
as produced by Python's line iteration together with the regex `.` never
matching a newline).  SQLite tables are modelled as lists of rows in insertion
order.  Python's `json` module is modelled by an executable encoder/parser
pair over a `JValue` type (JSON numbers as integers; string escaping restricted
to the two characters `"` and backslash; insignificant whitespace not
modelled), with a proved encode/parse roundtrip.
-/

/-! ## Python string helpers -/

/-- The characters matched by `\s` in Python's `re` module and stripped by
`str.strip()`. -/
def wsChar (c : Char) : Bool :=
  c = ' ' || c = '\t' || c = '\n' || c = '\r' || c = '\x0b' || c = '\x0c'

/-- Python `str.strip()` on a list of characters. -/
def pyStrip (l : List Char) : List Char :=
  ((l.dropWhile wsChar).reverse.dropWhile wsChar).reverse

/-- Python `str.strip()`. -/
def pyStripS (s : String) : String := String.mk (pyStrip s.toList)

/-- Python's substring test `needle in hay` on character lists. -/
def listContains (needle : List Char) : List Char → Bool
  | [] => needle.isEmpty
  | c :: rest => needle.isPrefixOf (c :: rest) || listContains needle rest

/-- Python's substring test `needle in hay` on strings. -/
def containsSub (needle hay : String) : Bool :=
  listContains needle.toList hay.toList

/-- `os.path.basename`: everything after the last `/`. -/
def pyBasename (s : String) : String :=
  String.mk ((s.toList.reverse.takeWhile (fun c => c ≠ '/')).reverse)

/-! ## Geth log pipeline: classifier (process_geth_logs.py lines 9-31, 60-91) -/

/-- `DEFAULT_YEAR` from process_geth_logs.py line 9. -/
def DEFAULT_YEAR : String := "2025"

/-- `ERROR_MAP` from process_geth_logs.py lines 10-31.  A Python `dict`
iterated with `.items()` preserves insertion order, so it is embedded as the
ordered list of its entries. -/
def ERROR_MAP : List (String × String) := [
  ("nonce too low", "invalidation_nonce_low"),
  ("nonce too high", "invalidation_nonce_high"),
  ("nonce has max value", "invalidation_nonce_max_value"),
  ("intrinsic gas too low", "invalidation_intrinsic_gas"),
  ("insufficient funds for gas * price + value", "invalidation_insufficient_funds"),
  ("transaction size", "invalidation_oversized_data"),
  ("transaction gas price below minimum", "gas_price_below_min"),
  ("max priority fee per gas higher than max fee per gas", "max_fee_too_high"),
  ("insufficient gas for floor data gas cost", "insufficient_gas_for_floor"),
  ("exceeds block gas limit", "exceeds_block_gas"),
  ("set code tx must have at least one authorization tuple", "invalidation_auth_list_empty"),
  ("EIP-7702 transaction with empty auth list", "invalidation_auth_list_empty_7702"),
  ("EIP-7702 transaction cannot be used to create contract", "invalidation_setcode_tx_create"),
  ("EIP-7702 authorization chain ID mismatch", "invalidation_auth_wrong_chain_id"),
  ("EIP-7702 authorization has invalid signature", "invalidation_auth_sig_invalid"),
  ("EIP-7702 authorization destination is a contract", "invalidation_auth_destination_is_contract"),
  ("EIP-7702 authorization nonce does not match current account nonce", "invalidation_auth_nonce_mismatch"),
  ("gapped-nonce tx from delegated accounts", "invalidation_gapped_nonce"),
  ("in-flight transaction limit reached for delegated accounts", "invalidation_tx_limit_reached"),
  ("authority already reserved", "invalidation_authority_reserved")]

/-- The `for err_string, metric_name in ERROR_MAP.items(): ... break` loop of
process_geth_logs.py lines 79-83: first entry whose substring occurs wins. -/
def scanErrorMap : List (String × String) → String → Option String
  | [], _ => none
  | (e, m) :: rest, content =>
    if containsSub e content then some m else scanErrorMap rest content

/-- Content classification, process_geth_logs.py lines 77-91 (the branch
structure that decides which metric a line's content counts towards). -/
def classifyContent (content : String) : Option String :=
  if containsSub "Discarding invalid transaction" content then
    match scanErrorMap ERROR_MAP content with
    | some m => some m
    | none => some "invalidation_other"
  else if containsSub "Discarding freshly underpriced transaction" content then
    some "mempool_underpriced"
  else if containsSub "Discarding future transaction replacing pending tx" content then
    some "mempool_replaced"
  else
    none

/-- One attempt of `log_pattern` =
`\[(\d{2}-\d{2})\|(\d{2}:\d{2}):\d{2}\.\d{3}\]\s*(.*)` (line 63) at the head
of the input; returns (group 1, group 2, text after the closing bracket). -/
def logMatchAt : List Char → Option (List Char × List Char × List Char)
  | '[' :: a :: b :: '-' :: c :: d :: '|' :: e :: f :: ':' :: g :: h :: ':' ::
      i :: j :: '.' :: k :: l :: m :: ']' :: rest =>
    if a.isDigit && b.isDigit && c.isDigit && d.isDigit && e.isDigit &&
       f.isDigit && g.isDigit && h.isDigit && i.isDigit && j.isDigit &&
       k.isDigit && l.isDigit && m.isDigit then
      some ([a, b, '-', c, d], [e, f, ':', g, h], rest)
    else none
  | _ => none

/-- `re.search` of `log_pattern`: leftmost position where the pattern
matches (line 69). -/
def logSearch : List Char → Option (List Char × List Char × List Char)
  | [] => none
  | c :: rest =>
    match logMatchAt (c :: rest) with
    | some r => some r
    | none => logSearch rest

/-- One attempt of the year pattern `(\d{4})-\d{2}-\d{2}` (line 60) at the
head of the input; returns group 1. -/
def yearMatchAt : List Char → Option (List Char)
  | a :: b :: c :: d :: '-' :: e :: f :: '-' :: g :: h :: _ =>
    if a.isDigit && b.isDigit && c.isDigit && d.isDigit && e.isDigit &&
       f.isDigit && g.isDigit && h.isDigit then
      some [a, b, c, d]
    else none
  | _ => none

/-- `re.search` of the year pattern over the file path. -/
def yearSearch : List Char → Option (List Char)
  | [] => none
  | c :: rest =>
    match yearMatchAt (c :: rest) with
    | some r => some r
    | none => yearSearch rest

/-- `year = year_match.group(1) if year_match else DEFAULT_YEAR`
(process_geth_logs.py lines 60-61). -/
def yearOf (path : String) : String :=
  match yearSearch path.toList with
  | some y => String.mk y
  | none => DEFAULT_YEAR

/-- Per-line classification: regex search, time-bucket construction
(`f"{year}-{group1} {group2}"`, line 73, the `.replace('-', '-')` being the
identity), `.strip()` of group 3, then content classification.  Returns the
(minute bucket, metric name) the line counts towards, if any. -/
def lineEvent (year : String) (line : String) : Option (String × String) :=
  match logSearch line.toList with
  | none => none
  | some (g1, g2, rest) =>
    let ts := year ++ "-" ++ String.mk g1 ++ " " ++ String.mk g2
    let content := String.mk (pyStrip rest)
    (classifyContent content).map fun m => (ts, m)

/-! ## Geth log pipeline: aggregation (lines 58, 77-102) -/

/-- Bump one metric inside a minute bucket; the nested `defaultdict(int)`
keeps first-insertion order, modelled as an association list. -/
def bumpInner : List (String × Nat) → String → List (String × Nat)
  | [], m => [(m, 1)]
  | (k, c) :: rest, m =>
    if k = m then (k, c + 1) :: rest else (k, c) :: bumpInner rest m

/-- Bump `counts[ts][metric]` (line 81 etc.). -/
def bumpCounts : List (String × List (String × Nat)) → String → String →
    List (String × List (String × Nat))
  | [], ts, m => [(ts, [(m, 1)])]
  | (t, inner) :: rest, ts, m =>
    if t = ts then (t, bumpInner inner m) :: rest
    else (t, inner) :: bumpCounts rest ts m

/-- The in-memory accumulation over all lines of a file (lines 68-91). -/
def accumulateCounts (year : String) (lines : List String) :
    List (String × List (String × Nat)) :=
  lines.foldl
    (fun cs line =>
      match lineEvent year line with
      | some (ts, m) => bumpCounts cs ts m
      | none => cs)
    []

/-- `metric.split('_')[0]` (line 101). -/
def categoryOf (metric : String) : String :=
  String.mk (metric.toList.takeWhile (fun c => c ≠ '_'))

/-- One row of the `geth_metrics` table. -/
structure Row where
  timestamp : String
  metric_category : String
  metric_name : String
  count : Nat
  source_file : String
deriving DecidableEq

/-- `records_to_insert` (lines 97-102): one row per accumulated cell, tagged
with the file's base name. -/
def recordsFor (path : String) (lines : List String) : List Row :=
  let year := yearOf path
  let counts := accumulateCounts year lines
  (counts.map fun p =>
    p.2.map fun q => Row.mk p.1 (categoryOf q.1) q.1 q.2 (pyBasename path)).flatten

/-! ## Metric store (lines 33-48, 104-111, 116-138) -/

/-- True when the store already holds a row with the same primary key
`(timestamp, metric_name, source_file)` (lines 38-45). -/
def hasKey (db : List Row) (r : Row) : Bool :=
  db.any fun q =>
    q.timestamp = r.timestamp ∧ q.metric_name = r.metric_name ∧
      q.source_file = r.source_file

/-- `INSERT OR IGNORE` of one row (line 107): appended unless the primary key
is already present, in which case the store is unchanged. -/
def insertOrIgnore (db : List Row) (r : Row) : List Row :=
  if hasKey db r then db else db ++ [r]

/-- `process_log_file` at the store level: accumulate the file, then insert
every record with `INSERT OR IGNORE`; a file producing no counts leaves the
store untouched (lines 93-95 — folding the empty batch coincides with the
early return). -/
def processLogFile (db : List Row) (path : String) (lines : List String) :
    List Row :=
  (recordsFor path lines).foldl insertOrIgnore db

/-- The grouping key of the summary query (line 131). -/
def tripleOf (r : Row) : String × String × String :=
  (r.timestamp, r.metric_category, r.metric_name)

/-- `SUM(count)` of the raw rows with a given
`(timestamp, metric_category, metric_name)` triple. -/
def sumCounts (db : List Row) (t : String × String × String) : Nat :=
  ((db.filter fun r => tripleOf r = t).map Row.count).sum

/-- The `geth_metrics_summary` table built by
`create_final_summary_and_indexes` (lines 122-132): one row per distinct
grouping triple, carrying the summed count. -/
def summaryRows (db : List Row) : List ((String × String × String) × Nat) :=
  (db.map tripleOf).dedup.map fun t => (t, sumCounts db t)

/-! ## Store lemmas -/

lemma hasKey_insertOrIgnore_self (db : List Row) (r : Row) :
    hasKey (insertOrIgnore db r) r = true := by
  unfold insertOrIgnore
  split
  · assumption
  · simp [hasKey]

lemma hasKey_insertOrIgnore_mono (db : List Row) (q r : Row)
    (h : hasKey db r = true) : hasKey (insertOrIgnore db q) r = true := by
  unfold insertOrIgnore
  split
  · exact h
  · unfold hasKey at h ⊢
    rw [List.any_append, h, Bool.true_or]

lemma hasKey_foldl_mono (l : List Row) (db : List Row) (r : Row)
    (h : hasKey db r = true) :
    hasKey (l.foldl insertOrIgnore db) r = true := by
  induction l generalizing db with
  | nil => exact h
  | cons a t ih => exact ih _ (hasKey_insertOrIgnore_mono _ _ _ h)

lemma hasKey_foldl_of_mem (l : List Row) (db : List Row) (r : Row)
    (h : r ∈ l) : hasKey (l.foldl insertOrIgnore db) r = true := by
  induction l generalizing db with
  | nil => cases h
  | cons a t ih =>
    rcases List.mem_cons.mp h with rfl | hm
    · exact hasKey_foldl_mono t _ r (hasKey_insertOrIgnore_self db r)
    · exact ih _ hm

lemma insertOrIgnore_noop (db : List Row) (r : Row)
    (h : hasKey db r = true) : insertOrIgnore db r = db := by
  unfold insertOrIgnore
  simp [h]

lemma foldl_insertOrIgnore_noop (l : List Row) (db : List Row)
    (h : ∀ r ∈ l, hasKey db r = true) : l.foldl insertOrIgnore db = db := by
  induction l with
  | nil => rfl
  | cons a t ih =>
    rw [List.foldl_cons, insertOrIgnore_noop db a (h a (List.mem_cons_self a t))]
    exact ih fun r hr => h r (List.mem_cons_of_mem a hr)

/-- C1: re-running the Log Aggregator over the same unchanged file is
idempotent — processing a file a second time leaves the `geth_metrics` store
(row list, hence row count and every stored count value) unchanged, and the
`INSERT OR IGNORE` of a key already present is a silent no-op, never an
overwrite and never an error. -/
theorem c1_reprocessing_idempotent (db : List Row) (path : String)
    (lines : List String) :
    processLogFile (processLogFile db path lines) path lines =
        processLogFile db path lines ∧
      ∀ store r, hasKey store r = true → insertOrIgnore store r = store := by
  constructor
  · unfold processLogFile
    exact foldl_insertOrIgnore_noop _ _ fun r hr => hasKey_foldl_of_mem _ _ _ hr
  · exact fun store r h => insertOrIgnore_noop store r h

theorem c1_reprocessing_idempotent_witness :
    (processLogFile
        (processLogFile [] "geth_2025-05-13.log"
          ["[05-13|02:01:07.123] Discarding invalid transaction: nonce too low"])
        "geth_2025-05-13.log"
        ["[05-13|02:01:07.123] Discarding invalid transaction: nonce too low"] =
      processLogFile [] "geth_2025-05-13.log"
        ["[05-13|02:01:07.123] Discarding invalid transaction: nonce too low"]) ∧
    insertOrIgnore [Row.mk "2025-05-13 02:01" "invalidation" "invalidation_nonce_low" 1 "g.log"]
        (Row.mk "2025-05-13 02:01" "invalidation" "invalidation_nonce_low" 1 "g.log") =
      [Row.mk "2025-05-13 02:01" "invalidation" "invalidation_nonce_low" 1 "g.log"] :=
  ⟨(c1_reprocessing_idempotent [] "geth_2025-05-13.log"
      ["[05-13|02:01:07.123] Discarding invalid transaction: nonce too low"]).1,
   (c1_reprocessing_idempotent [] "x" []).2 _ _ (by decide)⟩

/-! ## Classification order (C2) -/

lemma scanErrorMap_eq_find (content : String) :
    ∀ table : List (String × String),
      scanErrorMap table content =
        (table.find? fun p => containsSub p.1 content).map Prod.snd
  | [] => rfl
  | (e, m) :: t => by
    by_cases h : containsSub e content = true
    · simp only [scanErrorMap]
      rw [if_pos h,
        List.find?_cons_of_pos (p := fun q => containsSub q.1 content) t h]
      rfl
    · simp only [scanErrorMap]
      rw [if_neg h,
        List.find?_cons_of_neg (p := fun q => containsSub q.1 content) t
          (by simpa using h),
        scanErrorMap_eq_find content t]

/-- C2: for content containing the discard-invalid marker, the classifier
emits the metric of the first entry of the ordered `ERROR_MAP` table whose
substring occurs in the content (top-to-bottom, deterministically), and
`invalidation_other` when no table substring matches. -/
theorem c2_first_match_classification (content : String)
    (h : containsSub "Discarding invalid transaction" content = true) :
    classifyContent content =
      some (((ERROR_MAP.find? fun p => containsSub p.1 content).map
        Prod.snd).getD "invalidation_other") := by
  unfold classifyContent
  rw [if_pos h, ← scanErrorMap_eq_find]
  cases scanErrorMap ERROR_MAP content <;> rfl

theorem c2_first_match_classification_witness :
    classifyContent ("Discarding invalid transaction: EIP-7702 authorization " ++
        "nonce does not match current account nonce, nonce too low") =
      some "invalidation_nonce_low" := by
  rw [c2_first_match_classification _ (by decide)]
  decide

/-! ## Summary table correctness (C6) -/

lemma filter_eq_nil_of_not_mem {α : Type} [DecidableEq α] (t : α) :
    ∀ l : List α, t ∉ l → l.filter (fun x => x = t) = []
  | [], _ => rfl
  | b :: u, h => by
    have hb : ¬(b = t) := fun e => h (e ▸ List.mem_cons_self b u)
    rw [List.filter_cons, if_neg (by simpa using hb)]
    exact filter_eq_nil_of_not_mem t u fun hm => h (List.mem_cons_of_mem b hm)

lemma filter_nodup_single {α : Type} [DecidableEq α] (t : α) :
    ∀ l : List α, l.Nodup → t ∈ l → l.filter (fun x => x = t) = [t]
  | [], _, hm => absurd hm (List.not_mem_nil t)
  | a :: l, hn, hm => by
    rcases List.nodup_cons.mp hn with ⟨hna, hnl⟩
    rw [List.filter_cons]
    rcases List.mem_cons.mp hm with rfl | hml
    · rw [if_pos (by simp), filter_eq_nil_of_not_mem t l hna]
    · have ha : ¬(a = t) := fun e => hna (e ▸ hml)
      rw [if_neg (by simpa using ha)]
      exact filter_nodup_single t l hnl hml

/-- C6: for every `(timestamp, metric_category, metric_name)` triple present
in the raw `geth_metrics` table, the derived `geth_metrics_summary` table
contains exactly one row for that triple, and its `total_count` is the sum of
`count` over all matching raw rows across all source files. -/
theorem c6_summary_correct (db : List Row) (t : String × String × String)
    (h : ∃ r ∈ db, tripleOf r = t) :
    (summaryRows db).filter (fun s => s.1 = t) = [(t, sumCounts db t)] := by
  unfold summaryRows
  rw [List.filter_map]
  have hpred : ((fun s : (String × String × String) × Nat => decide (s.1 = t)) ∘
      fun u => (u, sumCounts db u)) = fun u => decide (u = t) := by
    funext u
    rfl
  rw [hpred]
  rcases h with ⟨r, hr, rfl⟩
  rw [filter_nodup_single _ _ (List.nodup_dedup _)
    (List.mem_dedup.mpr (List.mem_map_of_mem tripleOf hr))]
  rfl

theorem c6_summary_correct_witness :
    (summaryRows [Row.mk "ts" "invalidation" "invalidation_other" 3 "f1",
        Row.mk "ts" "invalidation" "invalidation_other" 4 "f2"]).filter
      (fun s => s.1 = ("ts", "invalidation", "invalidation_other")) =
    [(("ts", "invalidation", "invalidation_other"), 7)] := by
  have := c6_summary_correct
    [Row.mk "ts" "invalidation" "invalidation_other" 3 "f1",
     Row.mk "ts" "invalidation" "invalidation_other" 4 "f2"]
    ("ts", "invalidation", "invalidation_other") (by decide)
  rw [this]
  decide

/-! ## Time bucketing (C8) -/

/-- C8: the classifier's minute bucket is `{year}-{MM-DD} {HH:MM}` built from
the two captured groups (seconds and milliseconds discarded), where the year
comes from a `YYYY-MM-DD` substring of the file name when present and is the
fixed default otherwise; and the spec's concrete example line yields exactly
the claimed single MetricEvent with count 1. -/
theorem c8_time_bucket :
    (∀ year line g1 g2 rest ts m,
        logSearch line.toList = some (g1, g2, rest) →
        lineEvent year line = some (ts, m) →
        ts = year ++ "-" ++ String.mk g1 ++ " " ++ String.mk g2) ∧
    (∀ path y, yearSearch path.toList = some y → yearOf path = String.mk y) ∧
    (∀ path, yearSearch path.toList = none → yearOf path = DEFAULT_YEAR) ∧
    recordsFor "geth_2025-05-13.log"
        ["[05-13|02:01:07.123] Discarding invalid transaction: nonce too low"] =
      [Row.mk "2025-05-13 02:01" "invalidation" "invalidation_nonce_low" 1
        "geth_2025-05-13.log"] := by
  refine ⟨?_, ?_, ?_, by decide⟩
  · intro year line g1 g2 rest ts m hs he
    unfold lineEvent at he
    rw [hs] at he
    rcases Option.map_eq_some'.mp he with ⟨a, _, heq⟩
    exact (Prod.mk.injEq _ _ _ _ ▸ heq).1.symm
  · intro path y h
    unfold yearOf
    rw [h]
  · intro path h
    unfold yearOf
    rw [h]

theorem c8_time_bucket_witness :
    "2025-05-13 02:01" =
      "2025" ++ "-" ++ String.mk ['0', '5', '-', '1', '3'] ++ " " ++
        String.mk ['0', '2', ':', '0', '1'] :=
  c8_time_bucket.1 "2025"
    "[05-13|02:01:07.123] Discarding invalid transaction: nonce too low"
    ['0', '5', '-', '1', '3'] ['0', '2', ':', '0', '1']
    " Discarding invalid transaction: nonce too low".toList
    "2025-05-13 02:01" "invalidation_nonce_low" (by decide) (by decide)

/-! ## JSON values

Model of the JSON data handled by Python's `json` module in
shredder_script.py and process_memstats.py: numbers restricted to integers,
string escaping restricted to the quote and backslash characters, and
insignificant whitespace not modelled (none of the repository's behaviour
under scrutiny depends on those corners). -/

inductive JValue where
  | null
  | bool (b : Bool)
  | num (n : Int)
  | str (s : String)
  | arr (elems : List JValue)
  | obj (fields : List (String × JValue))

/-- The character of a decimal digit value. -/
def digitChar (d : Nat) : Char := Char.ofNat (48 + d)

/-- Decimal digits of a natural number, most significant first. -/
def natChars (m : Nat) : List Char :=
  if m = 0 then ['0'] else (Nat.digits 10 m).reverse.map digitChar

/-- Decimal encoding of an integer. -/
def intChars (n : Int) : List Char :=
  if n < 0 then '-' :: natChars n.natAbs else natChars n.natAbs

/-- JSON string-body escaping (quote and backslash). -/
def escChars : List Char → List Char
  | [] => []
  | c :: rest =>
    if c = '"' ∨ c = '\\' then '\\' :: c :: escChars rest
    else c :: escChars rest

mutual

/-- JSON serialisation of a value (model of `json.dumps`, compact form). -/
def encVal : JValue → List Char
  | .null => 'n' :: ['u', 'l', 'l']
  | .bool b => if b then 't' :: ['r', 'u', 'e'] else 'f' :: ['a', 'l', 's', 'e']
  | .num n => intChars n
  | .str s => '"' :: (escChars s.toList ++ ['"'])
  | .arr l => '[' :: encArr l
  | .obj l => '{' :: encObj l

/-- Everything after the opening bracket of an array. -/
def encArr : List JValue → List Char
  | [] => [']']
  | v :: vs => encVal v ++ encTail vs

/-- An array's items after the first, each preceded by a comma, then the
closing bracket. -/
def encTail : List JValue → List Char
  | [] => [']']
  | v :: vs => ',' :: (encVal v ++ encTail vs)

/-- One object member: quoted key, colon, value. -/
def encMem : String → JValue → List Char
  | k, v => '"' :: (escChars k.toList ++ '"' :: ':' :: encVal v)

/-- Everything after the opening brace of an object. -/
def encObj : List (String × JValue) → List Char
  | [] => ['}']
  | (k, v) :: kvs => encMem k v ++ encOTail kvs

/-- An object's members after the first, each preceded by a comma, then the
closing brace. -/
def encOTail : List (String × JValue) → List Char
  | [] => ['}']
  | (k, v) :: kvs => ',' :: (encMem k v ++ encOTail kvs)

end

/-- `json.dumps`. -/
def dumps (v : JValue) : String := String.mk (encVal v)

/-! ## JSON parsing (model of `json.loads`) -/

/-- Longest digit run at the head of the input, as digit values. -/
def takeDigits : List Char → List Nat × List Char
  | [] => ([], [])
  | c :: rest =>
    if c.isDigit then
      let p := takeDigits rest
      ((c.toNat - 48) :: p.1, p.2)
    else ([], c :: rest)

/-- Value of a big-endian digit list. -/
def digitsVal (ds : List Nat) : Nat := ds.foldl (fun a d => 10 * a + d) 0

/-- Parse a string body up to and including the closing quote (only the two
escapes the encoder emits are accepted after a backslash). -/
def parseStrBody : List Char → Option (List Char × List Char)
  | [] => none
  | c :: rest =>
    if c = '"' then some ([], rest)
    else if c = '\\' then
      match rest with
      | [] => none
      | c2 :: rest2 =>
        if c2 = '"' ∨ c2 = '\\' then
          (parseStrBody rest2).map fun p => (c2 :: p.1, p.2)
        else none
    else (parseStrBody rest).map fun p => (c :: p.1, p.2)

mutual

/-- Parse one JSON value.  The fuel argument only bounds nesting depth; a
parse consumes at least one character per fuel unit, so the initial fuel
`input length + 1` used by `jsonLoads` is never the reason a parse fails. -/
def parseVal : Nat → List Char → Option (JValue × List Char)
  | 0, _ => none
  | _ + 1, [] => none
  | fuel + 1, c :: rest =>
    if c = 'n' then
      match rest with
      | 'u' :: 'l' :: 'l' :: r => some (.null, r)
      | _ => none
    else if c = 't' then
      match rest with
      | 'r' :: 'u' :: 'e' :: r => some (.bool true, r)
      | _ => none
    else if c = 'f' then
      match rest with
      | 'a' :: 'l' :: 's' :: 'e' :: r => some (.bool false, r)
      | _ => none
    else if c = '"' then
      (parseStrBody rest).map fun p => (JValue.str (String.mk p.1), p.2)
    else if c = '[' then
      if rest.head? = some ']' then some (.arr [], rest.tail)
      else
        (parseVal fuel rest).bind fun p =>
          (parseArrTail fuel p.2).map fun q => (JValue.arr (p.1 :: q.1), q.2)
    else if c = '{' then
      if rest.head? = some '}' then some (.obj [], rest.tail)
      else
        (parseMember fuel rest).bind fun p =>
          (parseObjTail fuel p.2).map fun q => (JValue.obj (p.1 :: q.1), q.2)
    else if c = '-' then
      let p := takeDigits rest
      if p.1.isEmpty then none else some (.num (-(digitsVal p.1 : Int)), p.2)
    else if c.isDigit then
      let p := takeDigits (c :: rest)
      some (.num ((digitsVal p.1 : Int)), p.2)
    else none

/-- Parse an array's items after the first: comma-separated values up to the
closing bracket. -/
def parseArrTail : Nat → List Char → Option (List JValue × List Char)
  | 0, _ => none
  | _ + 1, [] => none
  | fuel + 1, c :: rest =>
    if c = ']' then some ([], rest)
    else if c = ',' then
      (parseVal fuel rest).bind fun p =>
        (parseArrTail fuel p.2).map fun q => (p.1 :: q.1, q.2)
    else none

/-- Parse one object member: quoted key, colon, value. -/
def parseMember : Nat → List Char → Option ((String × JValue) × List Char)
  | 0, _ => none
  | _ + 1, [] => none
  | fuel + 1, c :: rest =>
    if c = '"' then
      (parseStrBody rest).bind fun p =>
        if p.2.head? = some ':' then
          (parseVal fuel p.2.tail).map fun q => ((String.mk p.1, q.1), q.2)
        else none
    else none

/-- Parse an object's members after the first: comma-separated members up to
the closing brace. -/
def parseObjTail : Nat → List Char → Option (List (String × JValue) × List Char)
  | 0, _ => none
  | _ + 1, [] => none
  | fuel + 1, c :: rest =>
    if c = '}' then some ([], rest)
    else if c = ',' then
      (parseMember fuel rest).bind fun p =>
        (parseObjTail fuel p.2).map fun q => (p.1 :: q.1, q.2)
    else none

end

/-- `json.loads`: a parse succeeds only if it consumes the whole input. -/
def jsonLoads (s : String) : Option JValue :=
  match parseVal (s.toList.length + 1) s.toList with
  | some (v, []) => some v
  | _ => none

/-! ## Fuel bounds for the roundtrip proof -/

mutual

/-- Fuel sufficient to parse the encoding of a value. -/
def jneed : JValue → Nat
  | .arr [] => 1
  | .arr (v :: vs) => 1 + max (jneed v) (jneedT vs)
  | .obj [] => 1
  | .obj ((_, v) :: kvs) => 1 + max (1 + jneed v) (jneedO kvs)
  | _ => 1

/-- Fuel sufficient to parse an encoded array tail. -/
def jneedT : List JValue → Nat
  | [] => 1
  | v :: vs => 1 + max (jneed v) (jneedT vs)

/-- Fuel sufficient to parse an encoded object tail. -/
def jneedO : List (String × JValue) → Nat
  | [] => 1
  | (_, v) :: kvs => 1 + max (1 + jneed v) (jneedO kvs)

end

/-- "Does not start with a digit": the continuation shape that makes a
decimal number parse stop in the right place. -/
def ndStart : List Char → Prop
  | [] => True
  | c :: _ => c.isDigit = false

/-! ## Digit and string-body lemmas -/

lemma digitChar_isDigit {d : Nat} (h : d < 10) : (digitChar d).isDigit = true := by
  interval_cases d <;> decide

lemma digitChar_toNat {d : Nat} (h : d < 10) : (digitChar d).toNat - 48 = d := by
  interval_cases d <;> decide

lemma natChars_digits (n : Nat) : ∀ c ∈ natChars n, c.isDigit = true := by
  unfold natChars
  split
  · intro c hc
    rw [List.mem_singleton] at hc
    subst hc
    decide
  · intro c hc
    simp only [List.mem_map, List.mem_reverse] at hc
    rcases hc with ⟨d, hd, rfl⟩
    exact digitChar_isDigit (Nat.digits_lt_base (by norm_num) hd)

lemma natChars_ne_nil (n : Nat) : natChars n ≠ [] := by
  unfold natChars
  split
  · simp
  · simp only [ne_eq, List.map_eq_nil_iff, List.reverse_eq_nil_iff]
    exact Nat.digits_ne_nil_iff_ne_zero.mpr (by assumption)

lemma digitsVal_reverse (L : List Nat) : digitsVal L.reverse = Nat.ofDigits 10 L := by
  induction L with
  | nil => rfl
  | cons d t ih =>
    unfold digitsVal at ih ⊢
    rw [List.reverse_cons, List.foldl_append, ih, Nat.ofDigits_cons]
    simp only [List.foldl_cons, List.foldl_nil]
    ring

lemma natChars_val (n : Nat) :
    digitsVal ((natChars n).map fun c => c.toNat - 48) = n := by
  unfold natChars
  split
  · subst_vars
    decide
  · rw [List.map_map]
    have hmap : (Nat.digits 10 n).reverse.map ((fun c => c.toNat - 48) ∘ digitChar) =
        (Nat.digits 10 n).reverse := by
      rw [List.map_congr_left, List.map_id]
      intro d hd
      exact digitChar_toNat (Nat.digits_lt_base (by norm_num) (List.mem_reverse.mp hd))
    rw [hmap, digitsVal_reverse, Nat.ofDigits_digits]

lemma takeDigits_append (ds : List Char) (rest : List Char)
    (hds : ∀ c ∈ ds, c.isDigit = true) (hrest : ndStart rest) :
    takeDigits (ds ++ rest) = (ds.map fun c => c.toNat - 48, rest) := by
  induction ds with
  | nil =>
    rw [List.nil_append, List.map_nil]
    cases rest with
    | nil => rfl
    | cons c r =>
      unfold ndStart at hrest
      unfold takeDigits
      rw [if_neg (by rw [hrest]; exact Bool.false_ne_true)]
  | cons c t ih =>
    have hc := hds c (List.mem_cons_self _ _)
    rw [List.cons_append]
    unfold takeDigits
    rw [if_pos hc, ih fun d hd => hds d (List.mem_cons_of_mem _ hd)]
    rfl

lemma parseStrBody_esc : ∀ cs rest,
    parseStrBody (escChars cs ++ '"' :: rest) = some (cs, rest)
  | [], rest => by
    show parseStrBody ('"' :: rest) = some ([], rest)
    unfold parseStrBody
    rw [if_pos rfl]
  | c :: cs, rest => by
    unfold escChars
    by_cases h : c = '"' ∨ c = '\\'
    · rw [if_pos h, List.cons_append, List.cons_append]
      unfold parseStrBody
      rw [if_neg (by decide), if_pos rfl]
      show (if c = '"' ∨ c = '\\' then
          (parseStrBody (escChars cs ++ '"' :: rest)).map fun p =>
            (c :: p.1, p.2)
        else none) = some (c :: cs, rest)
      rw [if_pos h, parseStrBody_esc cs rest]
      rfl
    · rw [if_neg h, List.cons_append]
      push_neg at h
      unfold parseStrBody
      rw [if_neg h.1, if_neg h.2, parseStrBody_esc cs rest]
      rfl

lemma mk_toList (s : String) : String.mk s.toList = s := rfl

/-! ## Head-character facts for the roundtrip proof -/

lemma isDigit_resolve {c : Char} (h : c.isDigit = true) :
    c ≠ 'n' ∧ c ≠ 't' ∧ c ≠ 'f' ∧ c ≠ '"' ∧ c ≠ '[' ∧ c ≠ '{' ∧ c ≠ '-' ∧
      c ≠ ']' ∧ c ≠ '}' := by
  refine ⟨?_, ?_, ?_, ?_, ?_, ?_, ?_, ?_, ?_⟩ <;>
    exact fun e => absurd (e ▸ h) (by decide)

lemma natChars_cons (n : Nat) :
    ∃ c cs, natChars n = c :: cs ∧ c.isDigit = true := by
  rcases hn : natChars n with _ | ⟨c, cs⟩
  · exact absurd hn (natChars_ne_nil n)
  · exact ⟨c, cs, rfl, natChars_digits n c (hn ▸ List.mem_cons_self c cs)⟩

lemma encVal_head (v : JValue) :
    ∃ c cs, encVal v = c :: cs ∧ c ≠ ']' ∧ c ≠ '}' := by
  cases v with
  | null => exact ⟨'n', ['u', 'l', 'l'], by simp [encVal], by decide, by decide⟩
  | bool b =>
    cases b with
    | false =>
      exact ⟨'f', ['a', 'l', 's', 'e'], by simp [encVal], by decide, by decide⟩
    | true =>
      exact ⟨'t', ['r', 'u', 'e'], by simp [encVal], by decide, by decide⟩
  | num n =>
    by_cases hneg : n < 0
    · exact ⟨'-', natChars n.natAbs, by simp [encVal, intChars, hneg],
        by decide, by decide⟩
    · rcases natChars_cons n.natAbs with ⟨c, cs, hc, hd⟩
      refine ⟨c, cs, ?_, (isDigit_resolve hd).2.2.2.2.2.2.2.1,
        (isDigit_resolve hd).2.2.2.2.2.2.2.2⟩
      simp [encVal, intChars, hneg, hc]
  | str s =>
    exact ⟨'"', escChars s.toList ++ ['"'], by simp [encVal], by decide,
      by decide⟩
  | arr l => exact ⟨'[', encArr l, by simp [encVal], by decide, by decide⟩
  | obj l => exact ⟨'{', encObj l, by simp [encVal], by decide, by decide⟩

lemma encVal_append_head (v : JValue) (X : List Char) :
    ¬((encVal v ++ X).head? = some ']') ∧
      ¬((encVal v ++ X).head? = some '}') := by
  rcases encVal_head v with ⟨c, cs, hc, h1, h2⟩
  rw [hc, List.cons_append, List.head?_cons]
  exact ⟨by simp [h1], by simp [h2]⟩

lemma encMem_append_head (k : String) (v : JValue) (X : List Char) :
    ¬((encMem k v ++ X).head? = some '}') := by
  simp [encMem]

lemma ndStart_encTail (vs : List JValue) (rest : List Char) :
    ndStart (encTail vs ++ rest) := by
  cases vs with
  | nil =>
    simp only [encTail, List.cons_append, List.nil_append]
    show (']' : Char).isDigit = false
    decide
  | cons v t =>
    simp only [encTail, List.cons_append]
    show (',' : Char).isDigit = false
    decide

lemma ndStart_encOTail (kvs : List (String × JValue)) (rest : List Char) :
    ndStart (encOTail kvs ++ rest) := by
  cases kvs with
  | nil =>
    simp only [encOTail, List.cons_append, List.nil_append]
    show ('}' : Char).isDigit = false
    decide
  | cons kv t =>
    rcases kv with ⟨k, v⟩
    simp only [encOTail, List.cons_append]
    show (',' : Char).isDigit = false
    decide

lemma jneed_pos (v : JValue) : 1 ≤ jneed v := by
  cases v with
  | null => simp [jneed]
  | bool b => simp [jneed]
  | num n => simp [jneed]
  | str s => simp [jneed]
  | arr l => cases l <;> simp [jneed]
  | obj l => rcases l with _ | ⟨⟨k, v⟩, kvs⟩ <;> simp [jneed]

lemma jneedT_pos (l : List JValue) : 1 ≤ jneedT l := by
  cases l <;> simp [jneedT]

lemma jneedO_pos (l : List (String × JValue)) : 1 ≤ jneedO l := by
  rcases l with _ | ⟨⟨k, v⟩, kvs⟩ <;> simp [jneedO]

/-! ## The encode/parse roundtrip -/

lemma parse_enc (fuel : Nat) :
    (∀ v rest, jneed v ≤ fuel → ndStart rest →
        parseVal fuel (encVal v ++ rest) = some (v, rest)) ∧
    (∀ l rest, jneedT l ≤ fuel → ndStart rest →
        parseArrTail fuel (encTail l ++ rest) = some (l, rest)) ∧
    (∀ k v rest, 1 + jneed v ≤ fuel → ndStart rest →
        parseMember fuel (encMem k v ++ rest) = some ((k, v), rest)) ∧
    (∀ l rest, jneedO l ≤ fuel → ndStart rest →
        parseObjTail fuel (encOTail l ++ rest) = some (l, rest)) := by
  induction fuel with
  | zero =>
    refine ⟨fun v rest hb _ => ?_, fun l rest hb _ => ?_,
      fun k v rest hb _ => ?_, fun l rest hb _ => ?_⟩
    · exact absurd hb (by have := jneed_pos v; omega)
    · exact absurd hb (by have := jneedT_pos l; omega)
    · exact absurd hb (by have := jneed_pos v; omega)
    · exact absurd hb (by have := jneedO_pos l; omega)
  | succ fuel ih =>
    obtain ⟨ihV, ihT, ihM, ihO⟩ := ih
    refine ⟨?_, ?_, ?_, ?_⟩
    · intro v rest hb hnd
      cases v with
      | null =>
        simp only [encVal, List.cons_append, List.nil_append]
        unfold parseVal
        rw [if_pos rfl]
        rfl
      | bool b =>
        cases b with
        | true =>
          simp only [encVal]
          rw [if_pos trivial]
          simp only [List.cons_append, List.nil_append]
          unfold parseVal
          rw [if_neg (by decide), if_pos rfl]
          rfl
        | false =>
          simp only [encVal]
          rw [if_neg (by decide : ¬(false = true))]
          simp only [List.cons_append, List.nil_append]
          unfold parseVal
          rw [if_neg (by decide), if_neg (by decide), if_pos rfl]
          rfl
      | num n =>
        by_cases hneg : n < 0
        · simp only [encVal, intChars, if_pos hneg, List.cons_append]
          unfold parseVal
          rw [if_neg (by decide), if_neg (by decide), if_neg (by decide),
            if_neg (by decide), if_neg (by decide), if_neg (by decide),
            if_pos rfl]
          rw [takeDigits_append _ _ (natChars_digits _) hnd]
          show (if (((natChars n.natAbs).map fun c => c.toNat - 48)).isEmpty
              then none
              else some (JValue.num
                (-(digitsVal ((natChars n.natAbs).map fun c => c.toNat - 48) :
                    Int)), rest)) =
            some (JValue.num n, rest)
          rw [if_neg (by simp [List.isEmpty_iff, natChars_ne_nil])]
          rw [natChars_val]
          have he : -((n.natAbs : Nat) : Int) = n := by omega
          rw [he]
        · rcases natChars_cons n.natAbs with ⟨c, cs, hc, hcd⟩
          obtain ⟨h1, h2, h3, h4, h5, h6, h7, _, _⟩ := isDigit_resolve hcd
          simp only [encVal, intChars, if_neg hneg, hc, List.cons_append]
          unfold parseVal
          rw [if_neg h1, if_neg h2, if_neg h3, if_neg h4, if_neg h5, if_neg h6,
            if_neg h7, if_pos hcd]
          rw [← List.cons_append, ← hc,
            takeDigits_append _ _ (natChars_digits _) hnd]
          show some (JValue.num
              ((digitsVal ((natChars n.natAbs).map fun c => c.toNat - 48) :
                Int)), rest) =
            some (JValue.num n, rest)
          rw [natChars_val]
          have he : ((n.natAbs : Nat) : Int) = n := by omega
          rw [he]
      | str s =>
        simp only [encVal, List.cons_append, List.append_assoc,
          List.singleton_append]
        unfold parseVal
        rw [if_neg (by decide), if_neg (by decide), if_neg (by decide),
          if_pos rfl]
        rw [parseStrBody_esc]
        rfl
      | arr l =>
        cases l with
        | nil =>
          simp only [encVal, encArr, List.cons_append, List.singleton_append]
          unfold parseVal
          rw [if_neg (by decide), if_neg (by decide), if_neg (by decide),
            if_neg (by decide), if_pos rfl]
          rw [if_pos (by rw [List.head?_cons])]
          rfl
        | cons v vs =>
          have hbv : jneed v ≤ fuel := by
            simp only [jneed] at hb
            omega
          have hbt : jneedT vs ≤ fuel := by
            simp only [jneed] at hb
            omega
          simp only [encVal, encArr, List.cons_append, List.append_assoc]
          unfold parseVal
          rw [if_neg (by decide), if_neg (by decide), if_neg (by decide),
            if_neg (by decide), if_pos rfl]
          rw [if_neg (encVal_append_head v _).1]
          rw [ihV v _ hbv (ndStart_encTail vs rest)]
          simp only [Option.some_bind]
          rw [ihT vs rest hbt hnd]
          rfl
      | obj l =>
        rcases l with _ | ⟨⟨k, v⟩, kvs⟩
        · simp only [encVal, encObj, List.cons_append, List.singleton_append]
          unfold parseVal
          rw [if_neg (by decide), if_neg (by decide), if_neg (by decide),
            if_neg (by decide), if_neg (by decide), if_pos rfl]
          rw [if_pos (by rw [List.head?_cons])]
          rfl
        · have hbm : 1 + jneed v ≤ fuel := by
            simp only [jneed] at hb
            omega
          have hbo : jneedO kvs ≤ fuel := by
            simp only [jneed] at hb
            omega
          simp only [encVal, encObj, List.cons_append, List.append_assoc]
          unfold parseVal
          rw [if_neg (by decide), if_neg (by decide), if_neg (by decide),
            if_neg (by decide), if_neg (by decide), if_pos rfl]
          rw [if_neg (encMem_append_head k v _)]
          rw [ihM k v _ hbm (ndStart_encOTail kvs rest)]
          simp only [Option.some_bind]
          rw [ihO kvs rest hbo hnd]
          rfl
    · intro l rest hb hnd
      cases l with
      | nil =>
        simp only [encTail, List.cons_append, List.singleton_append]
        unfold parseArrTail
        rw [if_pos rfl]
        rfl
      | cons v vs =>
        have hbv : jneed v ≤ fuel := by
          simp only [jneedT] at hb
          omega
        have hbt : jneedT vs ≤ fuel := by
          simp only [jneedT] at hb
          omega
        simp only [encTail, List.cons_append, List.append_assoc]
        unfold parseArrTail
        rw [if_neg (by decide), if_pos rfl]
        rw [ihV v _ hbv (ndStart_encTail vs rest)]
        simp only [Option.some_bind]
        rw [ihT vs rest hbt hnd]
        rfl
    · intro k v rest hb hnd
      have hbv : jneed v ≤ fuel := by omega
      simp only [encMem, List.cons_append, List.append_assoc]
      unfold parseMember
      rw [if_pos rfl]
      rw [parseStrBody_esc]
      simp only [Option.some_bind]
      rw [if_pos (by rw [List.head?_cons])]
      simp only [List.tail_cons]
      rw [ihV v rest hbv hnd]
      rfl
    · intro l rest hb hnd
      rcases l with _ | ⟨⟨k, v⟩, kvs⟩
      · simp only [encOTail, List.cons_append, List.singleton_append]
        unfold parseObjTail
        rw [if_pos rfl]
        rfl
      · have hbm : 1 + jneed v ≤ fuel := by
          simp only [jneedO] at hb
          omega
        have hbo : jneedO kvs ≤ fuel := by
          simp only [jneedO] at hb
          omega
        simp only [encOTail, List.cons_append, List.append_assoc]
        unfold parseObjTail
        rw [if_neg (by decide), if_pos rfl]
        rw [ihM k v _ hbm (ndStart_encOTail kvs rest)]
        simp only [Option.some_bind]
        rw [ihO kvs rest hbo hnd]
        rfl

lemma intChars_ne_nil (n : Int) : intChars n ≠ [] := by
  unfold intChars
  split
  · simp
  · exact natChars_ne_nil _

mutual

/-- Length bound making `jneed` compatible with the fuel `jsonLoads`
supplies. -/
lemma jneed_le_enc : ∀ v : JValue, jneed v ≤ (encVal v).length
  | .null => by simp [jneed, encVal]
  | .bool true => by simp [jneed, encVal]
  | .bool false => by simp [jneed, encVal]
  | .num n => by
    simp only [jneed, encVal]
    exact List.length_pos.mpr (intChars_ne_nil n)
  | .str s => by simp [jneed, encVal]
  | .arr [] => by simp [jneed, encVal, encArr]
  | .arr (v :: vs) => by
    have h1 := jneed_le_enc v
    have h2 := jneedT_le_enc vs
    simp only [jneed, encVal, encArr, List.length_cons, List.length_append]
    omega
  | .obj [] => by simp [jneed, encVal, encObj]
  | .obj ((k, v) :: kvs) => by
    have h1 := jneed_le_enc v
    have h2 := jneedO_le_enc kvs
    simp only [jneed, encVal, encObj, encMem, List.length_cons,
      List.length_append]
    omega

/-- Length bound for array tails. -/
lemma jneedT_le_enc : ∀ l : List JValue, jneedT l ≤ (encTail l).length
  | [] => by simp [jneedT, encTail]
  | v :: vs => by
    have h1 := jneed_le_enc v
    have h2 := jneedT_le_enc vs
    simp only [jneedT, encTail, List.length_cons, List.length_append]
    omega

/-- Length bound for object tails. -/
lemma jneedO_le_enc : ∀ l : List (String × JValue), jneedO l ≤ (encOTail l).length
  | [] => by simp [jneedO, encOTail]
  | (k, v) :: kvs => by
    have h1 := jneed_le_enc v
    have h2 := jneedO_le_enc kvs
    simp only [jneedO, encOTail, encMem, List.length_cons, List.length_append]
    omega

end

/-- The roundtrip: parsing the serialisation of any value recovers it. -/
lemma loads_dumps (v : JValue) : jsonLoads (dumps v) = some v := by
  unfold jsonLoads dumps
  have hl : (String.mk (encVal v)).toList = encVal v := rfl
  rw [hl]
  have h := (parse_enc ((encVal v).length + 1)).1 v []
    (by have := jneed_le_enc v; omega) trivial
  rw [List.append_nil] at h
  rw [h]

/-! ## Shredder: JSON-value helpers (shredder_script.py)

Objects are association lists in member order; inputs with duplicate keys
(which CPython's `json` would resolve last-wins) are outside the modelled
fragment. -/

/-- Python truthiness of a JSON value (`if snapshot_data:`,
`if tx_group and ...`). -/
def pyTruthy : JValue → Bool
  | .null => false
  | .bool b => b
  | .num n => !(n == 0)
  | .str s => !(s == "")
  | .arr l => !l.isEmpty
  | .obj l => !l.isEmpty

/-- Association-list lookup. -/
def jlookup : List (String × JValue) → String → Option JValue
  | [], _ => none
  | (k, v) :: rest, key => if k = key then some v else jlookup rest key

/-- `d.get(key)`: Python returns `None` both when the key is absent and
when it maps to JSON null, so both collapse to `none`. -/
def pyGet (fields : List (String × JValue)) (key : String) : Option JValue :=
  match jlookup fields key with
  | some JValue.null => none
  | r => r

/-- `d.get(key)` as the JSON value that will be re-serialised: Python `None`
prints as JSON null, so absence becomes `JValue.null`. -/
def jgetD (fields : List (String × JValue)) (key : String) : JValue :=
  (jlookup fields key).getD JValue.null

/-- Exceptions distinguished by the embedded control flow. -/
inductive PyExc where
  | valueError
  | typeError
  | attributeError
deriving DecidableEq

/-- A non-empty all-digit run, as a number. -/
def decDigits (l : List Char) : Option Nat :=
  if l.isEmpty || !(l.all Char.isDigit) then none
  else some (digitsVal (l.map fun c => c.toNat - 48))

/-- An optionally signed decimal integer. -/
def decStr : List Char → Option Int
  | '-' :: rest => (decDigits rest).map fun n => -(n : Int)
  | '+' :: rest => (decDigits rest).map fun n => (n : Int)
  | l => (decDigits l).map fun n => (n : Int)

/-- Python `int(x)` on a JSON value: numbers and booleans convert; a string
converts when (after stripping surrounding whitespace) it spells an
optionally signed decimal integer, and raises ValueError otherwise — in
particular a hex string such as `"0x1a"` raises; `None`, arrays and objects
raise TypeError. -/
def pyInt : JValue → Except PyExc Int
  | .num n => .ok n
  | .bool true => .ok 1
  | .bool false => .ok 0
  | .str s =>
    match decStr (pyStrip s.toList) with
    | some n => .ok n
    | none => .error .valueError
  | .null => .error .typeError
  | .arr _ => .error .typeError
  | .obj _ => .error .typeError

/-- `int(raw.get(key, 0))` guarded by `except (ValueError, TypeError): 0`
(shredder_script.py lines 69-79): absent key defaults to 0; a present value
that does not convert also yields 0 — never an error. -/
def countOf (fields : List (String × JValue)) (key : String) : Int :=
  match jlookup fields key with
  | none => 0
  | some v =>
    match pyInt v with
    | .ok n => n
    | .error _ => 0

/-- Python dict assignment `d[k] = v`: replaces the value in place when the
key exists, appends otherwise. -/
def assocSet : List (String × JValue) → String → JValue → List (String × JValue)
  | [], key, v => [(key, v)]
  | (k, w) :: rest, key, v =>
    if k = key then (k, v) :: rest else (k, w) :: assocSet rest key v

/-! ## Shredder: transaction extraction and per-line processing -/

/-- `extract_and_write_txs` (shredder_script.py lines 108-119): for each
sender, for each nonce, when the transaction value is a mapping, inject the
three provenance fields and emit one record; a falsy or non-mapping group,
and non-mapping values at the sender or nonce level, are skipped. -/
def extractTxs (g : Option JValue) (status : String) (ts : JValue)
    (path : String) : List JValue :=
  match g with
  | some (JValue.obj senders) =>
    if senders.isEmpty then []
    else
      (senders.map fun p =>
        match p.2 with
        | JValue.obj nonces =>
          (nonces.map fun q =>
            match q.2 with
            | JValue.obj txf =>
              [JValue.obj (assocSet (assocSet (assocSet txf
                "_snapshot_timestamp" ts)
                "_original_source_file" (JValue.str path))
                "_pool_status" (JValue.str status))]
            | _ => []).flatten
        | _ => []).flatten
  | _ => []

/-- Resolution of the `snapshot` field (lines 90-103): a string at most
200 MiB long is parsed as JSON (parse failure: warning, no structure); an
oversized string is skipped unparsed; a mapping is used directly; any other
value yields no structure. -/
def resolveSnapshot : Option JValue → Option JValue
  | some (JValue.str s) =>
    if 200 * 1024 * 1024 < s.length then none else jsonLoads s
  | some (JValue.obj fields) => some (JValue.obj fields)
  | _ => none

/-- Transaction extraction for one line (lines 106-124): runs only when the
resolved snapshot is truthy; `.get` on a truthy non-mapping raises
AttributeError, which the inner `except Exception` turns into zero
records. -/
def lineTxs (sd : Option JValue) (ts : JValue) (path : String) :
    List JValue :=
  match sd with
  | none => []
  | some v =>
    if pyTruthy v then
      match v with
      | JValue.obj fields =>
        extractTxs (pyGet fields "pending") "pending" ts path ++
          extractTxs (pyGet fields "queued") "queued" ts path
      | _ => []
    else []

/-- One snapshot-summary output record (lines 81-86). -/
structure SummaryRec where
  snapshot_timestamp : JValue
  pending_count : Int
  queued_count : Int
  original_source_file : String

/-- The summary record built for one parsed envelope. -/
def summaryOfFields (path : String) (fields : List (String × JValue)) :
    SummaryRec :=
  { snapshot_timestamp := jgetD fields "timestamp"
    pending_count := countOf fields "pending_count"
    queued_count := countOf fields "queued_count"
    original_source_file := path }

/-- Outcome of one input line. -/
inductive LineRes where
  | blank
  | badJson
  | ok (s : SummaryRec) (txs : List JValue)
  | aborted

/-- Processing of one input line (lines 53-124): strip; skip when empty;
parse as JSON (failure: logged warning, skip); for a JSON object, emit the
summary record and the transaction records; a line whose JSON value is not
an object raises AttributeError at `raw_log_entry.get("timestamp")` before
any output for the line, which escapes the per-line handling. -/
def shredLine (path line : String) : LineRes :=
  let l := pyStripS line
  if l = "" then .blank
  else
    match jsonLoads l with
    | none => .badJson
    | some (JValue.obj fields) =>
      .ok (summaryOfFields path fields)
        (lineTxs (resolveSnapshot (pyGet fields "snapshot"))
          (jgetD fields "timestamp") path)
    | some _ => .aborted

/-- The two output streams of one input file, the number of malformed-line
warnings, and whether a raised line aborted the remainder of the file (the
file-level `except Exception` keeps what was already written). -/
structure ShredOut where
  summaries : List SummaryRec
  txs : List JValue
  warnings : Nat
  aborted : Bool

/-- Whole-file shredding over the input lines. -/
def shredFile (path : String) : List String → ShredOut
  | [] => ⟨[], [], 0, false⟩
  | line :: rest =>
    match shredLine path line with
    | .blank => shredFile path rest
    | .badJson =>
      let o := shredFile path rest
      ⟨o.summaries, o.txs, o.warnings + 1, o.aborted⟩
    | .ok s t =>
      let o := shredFile path rest
      ⟨s :: o.summaries, t ++ o.txs, o.warnings, o.aborted⟩
    | .aborted => ⟨[], [], 0, true⟩

/-! ## Shredder: output partitioning (lines 17-41) -/

/-- Python `base.replace(".gz", "")`: remove every occurrence, left to
right, non-overlapping. -/
def removeGz : List Char → List Char
  | '.' :: 'g' :: 'z' :: rest => removeGz rest
  | c :: rest => c :: removeGz rest
  | [] => []

/-- Split a reversed character list at its first dot: returns the reversed
extension body and the reversed stem. -/
def revSplitAtDot : List Char → Option (List Char × List Char)
  | [] => none
  | c :: rest =>
    if c = '.' then some ([], rest)
    else (revSplitAtDot rest).map fun p => (c :: p.1, p.2)

/-- `os.path.splitext` on a base name: split at the last dot unless every
character before that dot is itself a dot. -/
def splitext (s : List Char) : List Char × List Char :=
  match revSplitAtDot s.reverse with
  | none => (s, [])
  | some (extRev, stemRev) =>
    if stemRev.any (fun c => c ≠ '.') then
      (stemRev.reverse, '.' :: extRev.reverse)
    else (s, [])

/-- The candidate date string derived from the base file name (lines 22-25):
remove every ".gz", strip one extension, and strip a second one when an
extension remains. -/
def stemOf (base : String) : String :=
  let nogz := removeGz base.toList
  let p1 := (splitext nogz).1
  String.mk (if (splitext p1).2 ≠ [] then (splitext p1).1 else p1)

/-- Gregorian leap year. -/
def leapYear (y : Nat) : Bool := y % 4 = 0 && (y % 100 ≠ 0 || y % 400 = 0)

/-- Days in a month. -/
def daysInMonth (y m : Nat) : Nat :=
  if m = 2 then (if leapYear y then 29 else 28)
  else if m = 4 || m = 6 || m = 9 || m = 11 then 30
  else 31

/-- Digit value of a character. -/
def digitVal (c : Char) : Nat := c.toNat - 48

/-- CPython `_strptime` month pattern `1[0-2]|0[1-9]` (two-digit forms). -/
def monthOkTwo (a b : Char) : Bool :=
  (a = '1' && (b = '0' || b = '1' || b = '2')) ||
    (a = '0' && b.isDigit && b ≠ '0')

/-- CPython `_strptime` day pattern `3[01]|[12]\d|0[1-9]` (two-digit
forms). -/
def dayOkTwo (a b : Char) : Bool :=
  (a = '3' && (b = '0' || b = '1')) ||
    ((a = '1' || a = '2') && b.isDigit) ||
    (a = '0' && b.isDigit && b ≠ '0')

/-- The one-digit fallback `[1-9]` of both patterns. -/
def oneDigitOk (a : Char) : Bool := a.isDigit && a ≠ '0'

/-- Day-of-month followed by end of input (two-digit form preferred, as the
regex alternation orders it). -/
def parseDayEnd : List Char → Option Nat
  | [a] => if oneDigitOk a then some (digitVal a) else none
  | [a, b] => if dayOkTwo a b then some (10 * digitVal a + digitVal b) else none
  | _ => none

/-- Month, `-`, day, end of input.  The two-digit month and the one-digit
month alternatives are mutually exclusive (the second character is a digit
in one and `-` in the other), so no further backtracking arises. -/
def parseMD : List Char → Option (Nat × Nat)
  | a :: b :: c :: rest =>
    if monthOkTwo a b && c = '-' then
      (parseDayEnd rest).map fun d => (10 * digitVal a + digitVal b, d)
    else if oneDigitOk a && b = '-' then
      (parseDayEnd (c :: rest)).map fun d => (digitVal a, d)
    else none
  | [a, b] =>
    if oneDigitOk a && b = '-' then none else none
  | _ => none

/-- `datetime.strptime(s, '%Y-%m-%d')` succeeding: CPython's `_strptime`
patterns (`\d{4}` for the year, `1[0-2]|0[1-9]|[1-9]` for the month,
`3[01]|[12]\d|0[1-9]|[1-9]` for the day) matched over the whole string, plus
validity of the resulting calendar date (year at least 1, day within the
month). -/
def strptimeYmd (s : String) : Bool :=
  match s.toList with
  | y1 :: y2 :: y3 :: y4 :: '-' :: rest =>
    if y1.isDigit && y2.isDigit && y3.isDigit && y4.isDigit then
      match parseMD rest with
      | none => false
      | some (m, d) =>
        let y := 1000 * digitVal y1 + 100 * digitVal y2 + 10 * digitVal y3 +
          digitVal y4
        decide (1 ≤ y) && decide (1 ≤ d) && decide (d ≤ daysInMonth y m)
    else false
  | _ => false

/-- The partition folder name (lines 18-32): `snapshot_date=<stem>` when the
stem parses with `strptime('%Y-%m-%d')`, the fixed unknown partition
otherwise (the `ValueError` is caught — never fatal). -/
def partitionFolder (base : String) : String :=
  if strptimeYmd (stemOf base) then "snapshot_date=" ++ stemOf base
  else "snapshot_date=unknown_date"

/-- `"".join(c if c.isalnum() or c in ('_','-') else '_' for c in base)`
(line 39). -/
def safeName (base : String) : String :=
  String.mk (base.toList.map fun c =>
    if c.isAlphanum || c = '_' || c = '-' then c else '_')

/-- The output file path of one stream (lines 34-41); `os.path.join` of a
plain directory and a relative component is modelled as `/`-joining. -/
def outputFile (outDir base : String) : String :=
  outDir ++ "/" ++ partitionFolder base ++ "/part-" ++ safeName base ++
    ".jsonl.gz"

/-! ## C7: double-encoding tolerance -/

/-- C7: for every pool structure supplied as a JSON object, the shredder
produces identical TransactionRecords whether the envelope's `snapshot`
field holds the native object or its JSON-encoded string, provided the
string form is within the 200 MiB size threshold. -/
theorem c7_double_encoding (fields : List (String × JValue)) (ts : JValue)
    (path : String)
    (h : (dumps (JValue.obj fields)).length ≤ 200 * 1024 * 1024) :
    lineTxs (resolveSnapshot (some (JValue.str (dumps (JValue.obj fields)))))
        ts path =
      lineTxs (resolveSnapshot (some (JValue.obj fields))) ts path := by
  have hres : resolveSnapshot (some (JValue.str (dumps (JValue.obj fields)))) =
      some (JValue.obj fields) := by
    simp only [resolveSnapshot]
    rw [if_neg (by omega), loads_dumps]
  rw [hres]
  rfl

theorem c7_double_encoding_witness :
    lineTxs (resolveSnapshot (some (JValue.str (dumps (JValue.obj
        [("pending", JValue.obj [("0xS", JValue.obj [("0", JValue.obj
          [("hash", JValue.str "0xH")])])])])))))
        (JValue.str "T") "f.log" =
      lineTxs (resolveSnapshot (some (JValue.obj
        [("pending", JValue.obj [("0xS", JValue.obj [("0", JValue.obj
          [("hash", JValue.str "0xH")])])])])))
        (JValue.str "T") "f.log" :=
  c7_double_encoding _ _ _
    (by simp [dumps, encVal, encObj, encMem, encOTail, escChars]; decide)

/-! ## C3: flattening completeness -/

/-- The number of (sender, nonce) entries of one pool partition. -/
def groupSlots : Option JValue → Nat
  | some (JValue.obj senders) =>
    (senders.map fun p =>
      match p.2 with
      | JValue.obj nonces => nonces.length
      | _ => 0).sum
  | _ => 0

/-- Every innermost (sender, nonce) value of the partition is a mapping. -/
def groupWF : Option JValue → Bool
  | some (JValue.obj senders) =>
    senders.all fun p =>
      match p.2 with
      | JValue.obj nonces =>
        nonces.all fun q =>
          match q.2 with
          | JValue.obj _ => true
          | _ => false
      | _ => true
  | _ => true

/-- The pool partition a resolved snapshot value holds under a key. -/
def sdGroup (sd : JValue) (key : String) : Option JValue :=
  match sd with
  | JValue.obj fields => pyGet fields key
  | _ => none

/-- A field of an emitted transaction record. -/
def txField (r : JValue) (key : String) : Option JValue :=
  match r with
  | JValue.obj f => jlookup f key
  | _ => none

lemma jlookup_assocSet_self (l : List (String × JValue)) (k : String)
    (v : JValue) : jlookup (assocSet l k v) k = some v := by
  induction l with
  | nil => simp [assocSet, jlookup]
  | cons p rest ih =>
    rcases p with ⟨pk, pv⟩
    by_cases h : pk = k
    · simp [assocSet, h, jlookup]
    · simp [assocSet, h, jlookup, ih]

lemma jlookup_assocSet_other (l : List (String × JValue)) (k key : String)
    (v : JValue) (h : ¬(k = key)) :
    jlookup (assocSet l k v) key = jlookup l key := by
  induction l with
  | nil => simp [assocSet, jlookup, h]
  | cons p rest ih =>
    rcases p with ⟨pk, pv⟩
    by_cases hpk : pk = k
    · subst hpk
      simp [assocSet, jlookup, h]
    · simp only [assocSet, if_neg hpk]
      by_cases hpkey : pk = key
      · simp [jlookup, hpkey]
      · simp [jlookup, hpkey, ih]

lemma sum_map_one {α : Type} (l : List α) :
    (l.map fun _ => (1 : Nat)).sum = l.length := by
  induction l with
  | nil => rfl
  | cons a t ih =>
    rw [List.map_cons, List.sum_cons, ih, Nat.add_comm, List.length_cons]

lemma extractTxs_length (g : Option JValue) (status : String) (ts : JValue)
    (path : String) (h : groupWF g = true) :
    (extractTxs g status ts path).length = groupSlots g := by
  rcases g with _ | v
  · rfl
  cases v with
  | null => rfl
  | bool b => rfl
  | num n => rfl
  | str s => rfl
  | arr l => rfl
  | obj senders =>
    by_cases he : senders.isEmpty = true
    · rcases senders with _ | ⟨p, ps⟩
      · simp [extractTxs, groupSlots]
      · simp at he
    · simp only [extractTxs, groupSlots, if_neg he]
      rw [List.length_flatten, List.map_map]
      congr 1
      apply List.map_congr_left
      intro p hp
      simp only [groupWF, List.all_eq_true] at h
      have hpw := h p hp
      rcases p with ⟨sk, sv⟩
      cases sv with
      | null => rfl
      | bool b => rfl
      | num n => rfl
      | str s => rfl
      | arr l => rfl
      | obj nonces =>
        simp only [Function.comp_apply]
        rw [List.length_flatten, List.map_map]
        simp only at hpw
        rw [List.all_eq_true] at hpw
        have hall : (nonces.map ((fun l : List JValue => l.length) ∘
            fun q : String × JValue =>
              match q.2 with
              | JValue.obj txf =>
                [JValue.obj (assocSet (assocSet (assocSet txf
                  "_snapshot_timestamp" ts)
                  "_original_source_file" (JValue.str path))
                  "_pool_status" (JValue.str status))]
              | _ => [])) = nonces.map fun _ => (1 : Nat) := by
          apply List.map_congr_left
          intro q hq
          have hqw := hpw q hq
          rcases q with ⟨nk, tv⟩
          cases tv with
          | obj txf => rfl
          | null => simp at hqw
          | bool b => simp at hqw
          | num n => simp at hqw
          | str s => simp at hqw
          | arr l => simp at hqw
        rw [hall, sum_map_one]

lemma extractTxs_mem (g : Option JValue) (status : String) (ts : JValue)
    (path : String) :
    ∀ r ∈ extractTxs g status ts path,
      ∃ txf, r = JValue.obj (assocSet (assocSet (assocSet txf
        "_snapshot_timestamp" ts)
        "_original_source_file" (JValue.str path))
        "_pool_status" (JValue.str status)) := by
  intro r hr
  rcases g with _ | v
  · simp [extractTxs] at hr
  cases v with
  | null => simp [extractTxs] at hr
  | bool b => simp [extractTxs] at hr
  | num n => simp [extractTxs] at hr
  | str s => simp [extractTxs] at hr
  | arr l => simp [extractTxs] at hr
  | obj senders =>
    by_cases he : senders.isEmpty = true
    · simp [extractTxs, he] at hr
    · simp only [extractTxs, if_neg he, List.mem_flatten, List.mem_map] at hr
      rcases hr with ⟨inner, ⟨p, hp, hpe⟩, hrin⟩
      subst hpe
      rcases p with ⟨sk, sv⟩
      cases sv with
      | obj nonces =>
        simp only [List.mem_flatten, List.mem_map] at hrin
        rcases hrin with ⟨inner2, ⟨q, hq, hqe⟩, hrin2⟩
        subst hqe
        rcases q with ⟨nk, tv⟩
        cases tv with
        | obj txf =>
          simp only [List.mem_singleton] at hrin2
          exact ⟨txf, hrin2⟩
        | null => simp at hrin2
        | bool b => simp at hrin2
        | num n => simp at hrin2
        | str s => simp at hrin2
        | arr l => simp at hrin2
      | null => simp at hrin
      | bool b => simp at hrin
      | num n => simp at hrin
      | str s => simp at hrin
      | arr l => simp at hrin

lemma extractTxs_status (g : Option JValue) (status : String) (ts : JValue)
    (path : String) :
    ∀ r ∈ extractTxs g status ts path,
      txField r "_pool_status" = some (JValue.str status) := by
  intro r hr
  rcases extractTxs_mem g status ts path r hr with ⟨txf, rfl⟩
  simp only [txField]
  exact jlookup_assocSet_self _ _ _

lemma extractTxs_src (g : Option JValue) (status : String) (ts : JValue)
    (path : String) :
    ∀ r ∈ extractTxs g status ts path,
      txField r "_original_source_file" = some (JValue.str path) := by
  intro r hr
  rcases extractTxs_mem g status ts path r hr with ⟨txf, rfl⟩
  simp only [txField]
  rw [jlookup_assocSet_other _ _ _ _ (by decide)]
  exact jlookup_assocSet_self _ _ _

lemma lineTxs_decomp (sd : JValue) (ts : JValue) (path : String) :
    lineTxs (some sd) ts path =
      extractTxs (sdGroup sd "pending") "pending" ts path ++
        extractTxs (sdGroup sd "queued") "queued" ts path := by
  cases sd with
  | null => rfl
  | bool b =>
    rw [show lineTxs (some (JValue.bool b)) ts path =
      if pyTruthy (JValue.bool b) then [] else [] from rfl, ite_self]
    rfl
  | num n =>
    rw [show lineTxs (some (JValue.num n)) ts path =
      if pyTruthy (JValue.num n) then [] else [] from rfl, ite_self]
    rfl
  | str s =>
    rw [show lineTxs (some (JValue.str s)) ts path =
      if pyTruthy (JValue.str s) then [] else [] from rfl, ite_self]
    rfl
  | arr l =>
    rw [show lineTxs (some (JValue.arr l)) ts path =
      if pyTruthy (JValue.arr l) then [] else [] from rfl, ite_self]
    rfl
  | obj fields =>
    by_cases he : fields.isEmpty = true
    · rcases fields with _ | ⟨p, ps⟩
      · rfl
      · simp at he
    · simp only [lineTxs, sdGroup]
      rw [if_pos (by simp only [pyTruthy, he, Bool.not_false])]

/-- C3: for a resolved pool structure whose innermost entries are all
mappings, the shredder emits exactly one TransactionRecord per (sender,
nonce) entry (summed across `pending` and `queued`), the emitted list being
the concatenation of the two partitions' extractions, with every record
carrying `_pool_status` equal to the partition it came from. -/
theorem c3_flattening_completeness (sd : JValue) (ts : JValue) (path : String)
    (hp : groupWF (sdGroup sd "pending") = true)
    (hq : groupWF (sdGroup sd "queued") = true) :
    lineTxs (some sd) ts path =
        extractTxs (sdGroup sd "pending") "pending" ts path ++
          extractTxs (sdGroup sd "queued") "queued" ts path ∧
      (lineTxs (some sd) ts path).length =
        groupSlots (sdGroup sd "pending") + groupSlots (sdGroup sd "queued") ∧
      (∀ r ∈ extractTxs (sdGroup sd "pending") "pending" ts path,
        txField r "_pool_status" = some (JValue.str "pending")) ∧
      ∀ r ∈ extractTxs (sdGroup sd "queued") "queued" ts path,
        txField r "_pool_status" = some (JValue.str "queued") := by
  refine ⟨lineTxs_decomp sd ts path, ?_, extractTxs_status _ _ _ _,
    extractTxs_status _ _ _ _⟩
  rw [lineTxs_decomp sd ts path, List.length_append,
    extractTxs_length _ _ _ _ hp, extractTxs_length _ _ _ _ hq]

theorem c3_flattening_completeness_witness :
    (lineTxs (some (JValue.obj
        [("pending", JValue.obj [("s1", JValue.obj
            [("0", JValue.obj [("h", JValue.str "a")]),
             ("1", JValue.obj [("h", JValue.str "b")])])]),
         ("queued", JValue.obj [("s2", JValue.obj
            [("5", JValue.obj [])])])]))
      (JValue.str "T") "f.log").length =
      groupSlots (sdGroup (JValue.obj
        [("pending", JValue.obj [("s1", JValue.obj
            [("0", JValue.obj [("h", JValue.str "a")]),
             ("1", JValue.obj [("h", JValue.str "b")])])]),
         ("queued", JValue.obj [("s2", JValue.obj
            [("5", JValue.obj [])])])]) "pending") +
        groupSlots (sdGroup (JValue.obj
        [("pending", JValue.obj [("s1", JValue.obj
            [("0", JValue.obj [("h", JValue.str "a")]),
             ("1", JValue.obj [("h", JValue.str "b")])])]),
         ("queued", JValue.obj [("s2", JValue.obj
            [("5", JValue.obj [])])])]) "queued") :=
  (c3_flattening_completeness _ _ _ (by rfl) (by rfl)).2.1

/-! ## C4: per-line summary emission and malformed-line handling -/

/-- C4 is refuted as stated: a line that parses as a JSON *non-object* (here
the JSON number `42`) emits no SnapshotSummaryRecord — `raw_log_entry.get`
raises AttributeError and the remainder of the file is abandoned to the
file-level handler — although the line did parse as JSON. -/
theorem c4_counterexample :
    jsonLoads (pyStripS "42") = some (JValue.num 42) ∧
      (shredFile "f" ["42"]).summaries = [] ∧
      (shredFile "f" ["42"]).aborted = true :=
  ⟨rfl, rfl, rfl⟩

/-- C4 (amended): for every non-empty input line that parses as a JSON
*object*, exactly one SnapshotSummaryRecord is emitted, with the two count
fields defaulting to zero whenever the field is absent or its value fails
Python `int()` (the hex-string form among them) — never failing the line;
a line that does not parse as JSON is skipped with a logged warning and
processing continues with the next line. -/
theorem c4_line_handling :
    (∀ path line rest, ¬(pyStripS line = "") →
        jsonLoads (pyStripS line) = none →
        shredFile path (line :: rest) =
          ⟨(shredFile path rest).summaries, (shredFile path rest).txs,
            (shredFile path rest).warnings + 1,
            (shredFile path rest).aborted⟩) ∧
    (∀ path line rest fields,
        jsonLoads (pyStripS line) = some (JValue.obj fields) →
        (shredFile path (line :: rest)).summaries =
          summaryOfFields path fields :: (shredFile path rest).summaries) ∧
    (∀ path fields, jlookup fields "pending_count" = none →
        (summaryOfFields path fields).pending_count = 0) ∧
    (∀ path fields v e, jlookup fields "pending_count" = some v →
        pyInt v = Except.error e →
        (summaryOfFields path fields).pending_count = 0) ∧
    (∀ path fields, jlookup fields "queued_count" = none →
        (summaryOfFields path fields).queued_count = 0) ∧
    (∀ path fields v e, jlookup fields "queued_count" = some v →
        pyInt v = Except.error e →
        (summaryOfFields path fields).queued_count = 0) ∧
    pyInt (JValue.str "0x1a") = Except.error PyExc.valueError := by
  refine ⟨?_, ?_, ?_, ?_, ?_, ?_, rfl⟩
  · intro path line rest h1 h2
    have hl : shredLine path line = LineRes.badJson := by
      simp only [shredLine]
      rw [if_neg h1, h2]
    simp only [shredFile]
    rw [hl]
  · intro path line rest fields h
    have h1 : ¬(pyStripS line = "") := by
      intro e
      rw [e] at h
      exact Option.noConfusion ((show jsonLoads "" = none from rfl) ▸ h)
    have hl : shredLine path line =
        LineRes.ok (summaryOfFields path fields)
          (lineTxs (resolveSnapshot (pyGet fields "snapshot"))
            (jgetD fields "timestamp") path) := by
      simp only [shredLine]
      rw [if_neg h1, h]
    simp only [shredFile]
    rw [hl]
  · intro path fields h
    simp only [summaryOfFields, countOf]
    rw [h]
  · intro path fields v e h he
    simp only [summaryOfFields, countOf]
    rw [h]
    show ((match pyInt v with
      | Except.ok n => n
      | Except.error _ => 0) : Int) = (0 : Int)
    rw [he]
  · intro path fields h
    simp only [summaryOfFields, countOf]
    rw [h]
  · intro path fields v e h he
    simp only [summaryOfFields, countOf]
    rw [h]
    show ((match pyInt v with
      | Except.ok n => n
      | Except.error _ => 0) : Int) = (0 : Int)
    rw [he]

theorem c4_line_handling_witness :
    (shredFile "f" ["notjson"] =
      ⟨(shredFile "f" ([] : List String)).summaries,
        (shredFile "f" ([] : List String)).txs,
        (shredFile "f" ([] : List String)).warnings + 1,
        (shredFile "f" ([] : List String)).aborted⟩) ∧
    ((shredFile "f"
        [String.mk ['\x7b', '"', 'p', 'e', 'n', 'd', 'i', 'n', 'g', '_',
          'c', 'o', 'u', 'n', 't', '"', ':', '"', '0', 'x', '1', 'a', '"',
          '\x7d']]).summaries =
      summaryOfFields "f" [("pending_count", JValue.str "0x1a")] ::
        (shredFile "f" ([] : List String)).summaries) ∧
    (summaryOfFields "f" [("pending_count", JValue.str "0x1a")]).pending_count
        = 0 ∧
    (summaryOfFields "f" [("pending_count", JValue.str "0x1a")]).queued_count
        = 0 :=
  ⟨(c4_line_handling.1 "f" "notjson" [] (by decide) rfl),
   (c4_line_handling.2.1 "f" _ [] [("pending_count", JValue.str "0x1a")] rfl),
   (c4_line_handling.2.2.2.1 "f" [("pending_count", JValue.str "0x1a")]
      (JValue.str "0x1a") PyExc.valueError rfl rfl),
   (c4_line_handling.2.2.2.2.1 "f" [("pending_count", JValue.str "0x1a")]
      rfl)⟩

/-! ## C9: output partitioning by date -/

/-- C9 is refuted as stated: the file name `2025-05-13-mempool.log` begins
with the `YYYY-MM-DD` date `2025-05-13` (a parseable date prefix), yet its
records go to the unknown partition, because `strptime` is applied to the
whole stem, not to a prefix. -/
theorem c9_counterexample :
    ("2025-05-13".toList.isPrefixOf "2025-05-13-mempool.log".toList = true) ∧
      strptimeYmd "2025-05-13" = true ∧
      partitionFolder "2025-05-13-mempool.log" =
        "snapshot_date=unknown_date" :=
  ⟨rfl, rfl, rfl⟩

/-- C9 (amended): both output streams are written under the same partition
sub-path; that sub-path is the dated `snapshot_date=<stem>` exactly when the
stem — the base name with every ".gz" occurrence removed and up to two
extensions stripped — itself parses with `strptime('%Y-%m-%d')`, and the
fixed unknown partition otherwise; date-parse failure is caught and never
fatal. -/
theorem c9_partitioning (dirT dirS base : String) :
    (strptimeYmd (stemOf base) = true →
        partitionFolder base = "snapshot_date=" ++ stemOf base) ∧
    (strptimeYmd (stemOf base) = false →
        partitionFolder base = "snapshot_date=unknown_date") ∧
    outputFile dirT base =
        dirT ++ "/" ++ partitionFolder base ++ "/part-" ++ safeName base ++
          ".jsonl.gz" ∧
    outputFile dirS base =
        dirS ++ "/" ++ partitionFolder base ++ "/part-" ++ safeName base ++
          ".jsonl.gz" := by
  refine ⟨?_, ?_, rfl, rfl⟩
  · intro h
    unfold partitionFolder
    rw [if_pos h]
  · intro h
    unfold partitionFolder
    rw [if_neg (by rw [h]; exact Bool.false_ne_true)]

theorem c9_partitioning_witness :
    partitionFolder "2025-05-13.jsonl.gz" = "snapshot_date=" ++
        stemOf "2025-05-13.jsonl.gz" ∧
      partitionFolder "2025-05-13-mempool.log" =
        "snapshot_date=unknown_date" :=
  ⟨(c9_partitioning "t" "s" "2025-05-13.jsonl.gz").1 rfl,
   (c9_partitioning "t" "s" "2025-05-13-mempool.log").2.1 rfl⟩

/-! ## C10: source-file provenance -/

lemma lineTxs_src (sd : Option JValue) (ts : JValue) (path : String) :
    ∀ r ∈ lineTxs sd ts path,
      txField r "_original_source_file" = some (JValue.str path) := by
  intro r hr
  rcases sd with _ | v
  · simp [lineTxs] at hr
  simp only [lineTxs] at hr
  rcases hv : pyTruthy v with _ | _
  · rw [hv] at hr
    simp at hr
  · rw [hv] at hr
    simp only [if_true] at hr
    cases v with
    | obj fields =>
      rcases List.mem_append.mp hr with h | h
      · exact extractTxs_src _ _ _ _ r h
      · exact extractTxs_src _ _ _ _ r h
    | null => simp at hr
    | bool b => simp at hr
    | num n => simp at hr
    | str s => simp at hr
    | arr l => simp at hr

lemma shredLine_ok_inv (path line : String) (s : SummaryRec)
    (t : List JValue) (h : shredLine path line = LineRes.ok s t) :
    s.original_source_file = path ∧
      ∀ r ∈ t, txField r "_original_source_file" = some (JValue.str path) := by
  simp only [shredLine] at h
  by_cases he : pyStripS line = ""
  · rw [if_pos he] at h
    cases h
  · rw [if_neg he] at h
    rcases hj : jsonLoads (pyStripS line) with _ | v
    · rw [hj] at h
      cases h
    · rw [hj] at h
      cases v with
      | obj fields =>
        cases h
        exact ⟨rfl, lineTxs_src _ _ _⟩
      | null => cases h
      | bool b => cases h
      | num n => cases h
      | str s2 => cases h
      | arr l => cases h

/-- C10: every record the shredder emits — summary and transaction alike —
carries the full input path exactly as passed (directory components
included) in its source-file provenance field, whereas the Metric Store
pipeline tags its rows with the base file name only. -/
theorem c10_provenance_full_path (path : String) (lines : List String) :
    (∀ s ∈ (shredFile path lines).summaries,
        s.original_source_file = path) ∧
    (∀ r ∈ (shredFile path lines).txs,
        txField r "_original_source_file" = some (JValue.str path)) ∧
    ∀ p ls, ∀ r ∈ recordsFor p ls, r.source_file = pyBasename p := by
  refine ⟨?_, ?_, ?_⟩
  · induction lines with
    | nil => intro s hs; simp [shredFile] at hs
    | cons line rest ih =>
      intro s hs
      simp only [shredFile] at hs
      rcases hl : shredLine path line with _ | _ | ⟨s0, t0⟩ | _
      · rw [hl] at hs
        exact ih s hs
      · rw [hl] at hs
        exact ih s hs
      · rw [hl] at hs
        rcases List.mem_cons.mp hs with rfl | hs2
        · exact (shredLine_ok_inv path line s t0 hl).1
        · exact ih s hs2
      · rw [hl] at hs
        simp at hs
  · induction lines with
    | nil => intro r hr; simp [shredFile] at hr
    | cons line rest ih =>
      intro r hr
      simp only [shredFile] at hr
      rcases hl : shredLine path line with _ | _ | ⟨s0, t0⟩ | _
      · rw [hl] at hr
        exact ih r hr
      · rw [hl] at hr
        exact ih r hr
      · rw [hl] at hr
        rcases List.mem_append.mp hr with h | h
        · exact (shredLine_ok_inv path line s0 t0 hl).2 r h
        · exact ih r h
      · rw [hl] at hr
        simp at hr
  · intro p ls r hr
    simp only [recordsFor, List.mem_flatten, List.mem_map] at hr
    rcases hr with ⟨inner, ⟨q, hq, hqe⟩, hrin⟩
    subst hqe
    simp only [List.mem_map] at hrin
    rcases hrin with ⟨cell, hcell, hce⟩
    rw [← hce]

theorem c10_provenance_full_path_witness :
    (summaryOfFields "data/2025-05-13.log"
        [("timestamp", JValue.str "T"),
         ("snapshot", JValue.obj [("pending", JValue.obj [("s", JValue.obj
           [("0", JValue.obj
             [("h", JValue.str "x")])])])])]).original_source_file =
      "data/2025-05-13.log" ∧
    txField (JValue.obj [("h", JValue.str "x"),
        ("_snapshot_timestamp", JValue.str "T"),
        ("_original_source_file", JValue.str "data/2025-05-13.log"),
        ("_pool_status", JValue.str "pending")]) "_original_source_file" =
      some (JValue.str "data/2025-05-13.log") ∧
    (Row.mk "2025-05-13 02:01" "invalidation" "invalidation_nonce_low" 1
        "geth_2025-05-13.log").source_file =
      pyBasename "data/geth_2025-05-13.log" ∧
    ¬(pyBasename "data/2025-05-13.log" = "data/2025-05-13.log") := by
  refine ⟨?_, ?_, ?_, by decide⟩
  · refine (c10_provenance_full_path "data/2025-05-13.log"
      [String.mk ['\x7b', '"', 't', 'i', 'm', 'e', 's', 't', 'a', 'm', 'p',
        '"', ':', '"', 'T', '"', ',', '"', 's', 'n', 'a', 'p', 's', 'h',
        'o', 't', '"', ':', '\x7b', '"', 'p', 'e', 'n', 'd', 'i', 'n', 'g',
        '"', ':', '\x7b', '"', 's', '"', ':', '\x7b', '"', '0', '"', ':',
        '\x7b', '"', 'h', '"', ':', '"', 'x', '"', '\x7d', '\x7d', '\x7d',
        '\x7d', '\x7d']]).1 _ ?_
    rw [show (shredFile "data/2025-05-13.log"
      [String.mk ['\x7b', '"', 't', 'i', 'm', 'e', 's', 't', 'a', 'm', 'p',
        '"', ':', '"', 'T', '"', ',', '"', 's', 'n', 'a', 'p', 's', 'h',
        'o', 't', '"', ':', '\x7b', '"', 'p', 'e', 'n', 'd', 'i', 'n', 'g',
        '"', ':', '\x7b', '"', 's', '"', ':', '\x7b', '"', '0', '"', ':',
        '\x7b', '"', 'h', '"', ':', '"', 'x', '"', '\x7d', '\x7d', '\x7d',
        '\x7d', '\x7d']]).summaries =
      [summaryOfFields "data/2025-05-13.log"
        [("timestamp", JValue.str "T"),
         ("snapshot", JValue.obj [("pending", JValue.obj [("s", JValue.obj
           [("0", JValue.obj [("h", JValue.str "x")])])])])]] from rfl]
    exact List.mem_singleton.mpr rfl
  · refine (c10_provenance_full_path "data/2025-05-13.log"
      [String.mk ['\x7b', '"', 't', 'i', 'm', 'e', 's', 't', 'a', 'm', 'p',
        '"', ':', '"', 'T', '"', ',', '"', 's', 'n', 'a', 'p', 's', 'h',
        'o', 't', '"', ':', '\x7b', '"', 'p', 'e', 'n', 'd', 'i', 'n', 'g',
        '"', ':', '\x7b', '"', 's', '"', ':', '\x7b', '"', '0', '"', ':',
        '\x7b', '"', 'h', '"', ':', '"', 'x', '"', '\x7d', '\x7d', '\x7d',
        '\x7d', '\x7d']]).2.1 _ ?_
    rw [show (shredFile "data/2025-05-13.log"
      [String.mk ['\x7b', '"', 't', 'i', 'm', 'e', 's', 't', 'a', 'm', 'p',
        '"', ':', '"', 'T', '"', ',', '"', 's', 'n', 'a', 'p', 's', 'h',
        'o', 't', '"', ':', '\x7b', '"', 'p', 'e', 'n', 'd', 'i', 'n', 'g',
        '"', ':', '\x7b', '"', 's', '"', ':', '\x7b', '"', '0', '"', ':',
        '\x7b', '"', 'h', '"', ':', '"', 'x', '"', '\x7d', '\x7d', '\x7d',
        '\x7d', '\x7d']]).txs =
      [JValue.obj [("h", JValue.str "x"),
        ("_snapshot_timestamp", JValue.str "T"),
        ("_original_source_file", JValue.str "data/2025-05-13.log"),
        ("_pool_status", JValue.str "pending")]] from rfl]
    exact List.mem_singleton.mpr rfl
  · refine (c10_provenance_full_path "x" []).2.2 "data/geth_2025-05-13.log"
      ["[05-13|02:01:07.123] Discarding invalid transaction: nonce too low"]
      _ ?_
    rw [show recordsFor "data/geth_2025-05-13.log"
      ["[05-13|02:01:07.123] Discarding invalid transaction: nonce too low"] =
      [Row.mk "2025-05-13 02:01" "invalidation" "invalidation_nonce_low" 1
        "geth_2025-05-13.log"] from by decide]
    exact List.mem_singleton.mpr rfl

/-! ## Gauge Log Splitter (process_memstats.py lines 53-76) -/

/-- One row of the `memstats` table / one GaugeRecord. -/
structure MemRec where
  timestamp : String
  alloc_bytes : Int
  sys_bytes : Int
  num_gc : Int
  source_file : String

/-- `data.get(key)` where `data` came from `json.loads`: a non-mapping value
raises AttributeError; for a mapping, absence and JSON null both give
Python `None`. -/
def memGet (data : JValue) (key : String) : Except PyExc (Option JValue) :=
  match data with
  | JValue.obj fields => Except.ok (pyGet fields key)
  | _ => Except.error PyExc.attributeError

/-- The `(timestamp, JSON-blob)` pair loop of process_memstats.py lines
53-76, over the fragments produced by the timestamp split (an odd trailing
fragment is dropped).  The `try` block catches only `json.JSONDecodeError`,
so a parse failure skips the pair — but `int()` of a present,
non-convertible value raises ValueError or TypeError, which is not caught
and escapes the whole file's processing (modelled as `Except.error`). -/
def processEntries (file : String) : List String → Except PyExc (List MemRec)
  | ts :: blob :: rest =>
    match jsonLoads (pyStripS blob) with
    | none => processEntries file rest
    | some data => do
      let alloc ← memGet data "Alloc"
      let sysv ← memGet data "Sys"
      let ngc ← memGet data "NumGC"
      match alloc, sysv, ngc with
      | some a, some sv, some n => do
        let ai ← pyInt a
        let si ← pyInt sv
        let ni ← pyInt n
        let tail ← processEntries file rest
        Except.ok (⟨ts, ai, si, ni, file⟩ :: tail)
      | _, _, _ => processEntries file rest
  | _ => Except.ok []

/-- C5: the claim that a malformed gauge blob is skipped and never fatal is
contradicted by the code.  A blob whose three fields are present but not
integer-convertible (here `Alloc` holding the string "oops") parses as
JSON, so the narrow `except json.JSONDecodeError` does not apply, and the
uncaught ValueError from `int()` aborts the file's processing.  For
contrast: a well-formed pair (the spec's own example) yields its
GaugeRecord, and a JSON-malformed blob is skipped without error. -/
theorem c5_memstats_fatal_conversion :
    processEntries "m.log"
        ["2025-05-13T02:01:00+00:00",
         String.mk ['\x7b', '"', 'A', 'l', 'l', 'o', 'c', '"', ':', '"',
           'o', 'o', 'p', 's', '"', ',', '"', 'S', 'y', 's', '"', ':',
           '2', '0', '0', ',', '"', 'N', 'u', 'm', 'G', 'C', '"', ':',
           '3', '\x7d']] =
      Except.error PyExc.valueError ∧
    processEntries "m.log"
        ["2025-05-13T02:01:00+00:00",
         String.mk ['\x7b', '"', 'A', 'l', 'l', 'o', 'c', '"', ':', '1',
           '0', '0', ',', '"', 'S', 'y', 's', '"', ':', '2', '0', '0',
           ',', '"', 'N', 'u', 'm', 'G', 'C', '"', ':', '3', '\x7d']] =
      Except.ok [⟨"2025-05-13T02:01:00+00:00", 100, 200, 3, "m.log"⟩] ∧
    processEntries "m.log" ["2025-05-13T02:01:00+00:00", "notjson"] =
      Except.ok ([] : List MemRec) :=
  ⟨rfl, rfl, rfl⟩
